import Mathlib

/-!
Verification of `src/stats.c` (Atlants embedded statistics library).

The library works on caller-supplied flat buffers of C doubles holding row-major
I×J matrices (element (i, j) at offset `i*dim_j + j`).  The shallow embedding
represents a buffer as a `List ℚ` (doubles are modelled as exact rationals, so
all claims about the arithmetic are exact-value claims); a read `a[k]` becomes
`a.getD k 0` and a write `a[k] = v` becomes `a.set k v` (a no-op when `k` is out
of range), and each C `for` loop becomes a `List.foldl` over `List.range`.
Square roots land in `ℝ` via `Real.sqrt`.  For `modify_mean_stddev`, whose
index arithmetic is under scrutiny, indexing is instead Option-checked: any
out-of-bounds read or write makes the function return `none`.
-/

namespace Stats

/-- Embedding of `stat_mean` (stats.c lines 31–52): three loops over the `mean`
buffer — zero-initialise `mean[j]`, accumulate `mean[j] += a[j + n]` with
`n = i * dim_j` substituted inline, then divide each `mean[j]` by `dim_i`.
Returns the final contents of the `mean` buffer. -/
def stat_mean (a mean : List ℚ) (dim_i dim_j : Nat) : List ℚ :=
  -- initialize the mean vector
  let mean := (List.range dim_j).foldl (fun mean j => mean.set j 0) mean
  -- sum of each column: mean[j] += a[j + i*dim_j]
  let mean := (List.range dim_i).foldl
    (fun mean i => (List.range dim_j).foldl
      (fun mean j => mean.set j (mean.getD j 0 + a.getD (j + i * dim_j) 0)) mean) mean
  -- divide to get average
  (List.range dim_j).foldl (fun mean j => mean.set j (mean.getD j 0 / (dim_i : ℚ))) mean

/-- Flat indices of `a` read by `stat_mean`'s summation loop, in loop order
(outer loop over rows `i`, inner loop over columns `j`, reading `a[j + i*dim_j]`). -/
def stat_mean_reads (dim_i dim_j : Nat) : List Nat :=
  (List.range dim_i).flatMap (fun i => (List.range dim_j).map (fun j => j + i * dim_j))

/-- Embedding of the first two loops of `stat_std` (stats.c lines 68–78):
zero-initialise `std[j]`, then accumulate the squared deviations
`std[j] += (a[j + n] - mean[j]) * (a[j + n] - mean[j])` with `n = i * dim_j`
substituted inline. -/
def stat_std_acc (a mean std : List ℚ) (dim_i dim_j : Nat) : List ℚ :=
  -- initialize the std vector
  let std := (List.range dim_j).foldl (fun std j => std.set j 0) std
  -- sum of each column
  (List.range dim_i).foldl
    (fun std i => (List.range dim_j).foldl
      (fun std j => std.set j (std.getD j 0 +
        (a.getD (j + i * dim_j) 0 - mean.getD j 0) *
          (a.getD (j + i * dim_j) 0 - mean.getD j 0))) std) std

/-- Embedding of `stat_std` (stats.c lines 63–85): after the accumulation loops
(`stat_std_acc`) the final loop performs, for each `j < dim_j`,
`std[j] /= (double)(dim_i - 1)` followed by `std[j] = sqrt(std[j])`.  The buffer
is reinterpreted over `ℝ` (an exact elementwise cast) so the square root can be
taken; `dim_i - 1` is the C `int` subtraction, embedded as `(dim_i : ℝ) - 1`. -/
noncomputable def stat_std (a mean std : List ℚ) (dim_i dim_j : Nat) : List ℝ :=
  (List.range dim_j).foldl
    (fun std j =>
      let std := std.set j (std.getD j 0 / ((dim_i : ℝ) - 1))
      std.set j (Real.sqrt (std.getD j 0)))
    ((stat_std_acc a mean std dim_i dim_j).map (fun q : ℚ => (q : ℝ)))

/-- Embedding of `remove_mean_col` (stats.c lines 95–105): writes
`b[i*dim_j + j] = a[i*dim_j + j] - mean[j]` for every row `i` and column `j`,
returning the final contents of the `b` buffer. -/
def remove_mean_col (a mean b : List ℚ) (dim_i dim_j : Nat) : List ℚ :=
  (List.range dim_i).foldl
    (fun b i => (List.range dim_j).foldl
      (fun b j => b.set (i * dim_j + j) (a.getD (i * dim_j + j) 0 - mean.getD j 0)) b) b

/-- Embedding of `modify_mean_stddev` (stats.c lines 117–125) with
Option-checked indexing: line 122 reads `mtx[i * dim_j + j]` but writes
`mtx[i * dim_i + j]`, exactly as in the source; an out-of-range read or write
returns `none`. -/
def modify_mean_stddev (mtx : List ℚ) (new_mean new_stddev : ℚ) (dim_i dim_j : Nat) :
    Option (List ℚ) :=
  (List.range dim_i).foldlM
    (fun mtx i => (List.range dim_j).foldlM
      (fun (mtx : List ℚ) j => do
        let v ← mtx[i * dim_j + j]?
        if i * dim_i + j < mtx.length then
          pure (mtx.set (i * dim_i + j) (v * new_stddev + new_mean))
        else none) mtx) mtx

/-- Embedding of the constant `Twopi` of `randn` (stats.c line 133), the literal
`6.2831853071795864769252867665590057683943387987502` (the decimal expansion of
`2 * pi` to 50 digits). -/
def Twopi : ℝ := 6.2831853071795864769252867665590057683943387987502

/-- Modelled from the C standard library: `RAND_MAX`, the largest value of
`rand()`, with its glibc value `2^31 - 1`.  No claim depends on the exact
value. -/
def RAND_MAX : ℤ := 2147483647

/-- Embedding of `randn` (stats.c lines 131–143).  The process-wide
pseudo-random source behind `rand()` is modelled as a stream (`List ℤ`) of the
successive values `rand()` returns; a call to `rand()` consumes the head of the
stream.  `randn` returns the generated value together with the remaining
stream. -/
noncomputable def randn (stream : List ℤ) : ℝ × List ℤ :=
  let randmax : ℝ := (RAND_MAX : ℝ)
  let random : ℝ := ((stream.headD 0 : ℤ) : ℝ)
  let random : ℝ := random / randmax
  let randnorm : ℝ := Real.sqrt (-2.0 * Real.log random)
  let randnorm : ℝ := randnorm * Real.cos (Twopi * random)
  (randnorm, stream.tail)

/-- Decimal digit character, `'0' + n` for `n < 10`. -/
def digitChar (n : Nat) : Char := Char.ofNat (48 + n)

/-- Decimal digits of a natural number, most significant first; structural
recursion on a fuel argument so the definition evaluates in the kernel. -/
def natDigitsCore : Nat → Nat → List Char → List Char
  | 0, _, acc => acc
  | fuel + 1, n, acc =>
    if n < 10 then digitChar n :: acc
    else natDigitsCore fuel (n / 10) (digitChar (n % 10) :: acc)

/-- Decimal digits of `n`, most significant first. -/
def natDigits (n : Nat) : List Char := natDigitsCore (n + 1) n []

/-- Modelled from the C standard library: the text `printf("%2.5f", x)` produces
for a double `x` — fixed-point notation with exactly 5 fractional digits,
rounded to nearest (half away from zero), with a minus sign for negative
values, left-padded with spaces to a minimum field width of 2 (the width is
always exceeded here, since even `0.00000` has 7 characters). -/
def format_2_5f (q : ℚ) : String :=
  let m : ℤ := ⌊(if q < 0 then -q else q) * 100000 + 1 / 2⌋
  let intDigits := natDigits (m / 100000).toNat
  let fracDigits := natDigits (m % 100000).toNat
  let fracPadded := List.replicate (5 - fracDigits.length) (digitChar 0) ++ fracDigits
  let s := (if q < 0 then "-" else "") ++ String.mk intDigits ++ "." ++ String.mk fracPadded
  if s.length < 2 then String.mk (List.replicate (2 - s.length) ' ') ++ s else s

/-- Embedding of `show_matrix` (stats.c lines 172–182): the text written to
standard output, accumulated as a string — for each row, each element formatted
with `printf("%2.5f ", ...)` (value then one space), then a newline. -/
def show_matrix (A : List ℚ) (dim_i dim_j : Nat) : String :=
  (List.range dim_i).foldl
    (fun out i =>
      ((List.range dim_j).foldl
        (fun out j => out ++ format_2_5f (A.getD (i * dim_j + j) 0) ++ " ") out) ++ "\n")
    ""

/-! Generic lemmas about `List.set` / `List.getD` and loops written as folds. -/

/-- Reading back a just-written in-range cell. -/
theorem getD_set_self {α : Type} (l : List α) (n : Nat) (a d : α) (h : n < l.length) :
    (l.set n a).getD n d = a := by
  simp [List.getD_eq_getElem?_getD, List.getElem?_set_self, h]

/-- Writing one cell leaves every other cell unchanged. -/
theorem getD_set_ne {α : Type} (l : List α) (m n : Nat) (a d : α) (h : m ≠ n) :
    (l.set m a).getD n d = l.getD n d := by
  simp [List.getD_eq_getElem?_getD, List.getElem?_set_ne h]

/-- A fold whose every step preserves the buffer length preserves it overall. -/
theorem foldl_length_eq {α β : Type} (g : List α → β → List α)
    (hg : ∀ t b, (g t b).length = t.length) (l : List β) :
    ∀ s : List α, (l.foldl g s).length = s.length := by
  induction l with
  | nil => intro s; rfl
  | cons b l ih => intro s; rw [List.foldl_cons, ih, hg]

/-- A loop `for j in [0, m): buf[j] = f j buf[j]` touches each cell at most once,
so cell `k` ends as `f k` of its initial value when the loop reaches it, and is
untouched otherwise. -/
theorem foldl_set_self_getD {α : Type} (d : α) (f : Nat → α → α) :
    ∀ (m : Nat) (s : List α) (k : Nat),
      ((List.range m).foldl (fun t j => t.set j (f j (t.getD j d))) s).getD k d
        = if k < m ∧ k < s.length then f k (s.getD k d) else s.getD k d := by
  intro m
  induction m with
  | zero => intro s k; simp
  | succ m ih =>
    intro s k
    rw [List.range_succ, List.foldl_append, List.foldl_cons, List.foldl_nil]
    have hlen : ((List.range m).foldl (fun t j => t.set j (f j (t.getD j d))) s).length
        = s.length :=
      foldl_length_eq _ (fun t b => List.length_set t b _) _ s
    by_cases hk : k = m
    · subst hk
      by_cases hkl : k < s.length
      · rw [getD_set_self _ _ _ _ (by rw [hlen]; exact hkl), ih]
        simp [hkl, Nat.lt_succ_self]
      · rw [List.set_eq_of_length_le (by rw [hlen]; omega), ih]
        simp [hkl]
    · rw [getD_set_ne _ _ _ _ _ (Ne.symm hk), ih]
      have hiff : (k < m + 1 ∧ k < s.length) ↔ (k < m ∧ k < s.length) := by omega
      rw [if_congr hiff rfl rfl]

/-- Length is preserved by `foldl_set_self_getD`-shaped loops. -/
theorem foldl_set_self_length {α : Type} (d : α) (f : Nat → α → α) (m : Nat) (s : List α) :
    ((List.range m).foldl (fun t j => t.set j (f j (t.getD j d))) s).length = s.length :=
  foldl_length_eq _ (fun t b => List.length_set t b _) _ s

/-- A loop of writes `buf[idx p] = v p` (values independent of the buffer) never
changes a cell hit by no write. -/
theorem foldl_set_miss {α β : Type} (d : α) (idx : β → Nat) (v : β → α) (l : List β) :
    ∀ (s : List α) (k : Nat), (∀ p ∈ l, idx p ≠ k) →
      (l.foldl (fun t p => t.set (idx p) (v p)) s).getD k d = s.getD k d := by
  induction l with
  | nil => intro s k _; rfl
  | cons p l ih =>
    intro s k hk
    rw [List.foldl_cons, ih _ _ (fun q hq => hk q (List.mem_cons_of_mem p hq)),
      getD_set_ne _ _ _ _ _ (hk p (List.mem_cons_self p l))]

/-- A loop of writes `buf[idx p] = v p` at pairwise distinct in-range indices
leaves cell `idx b` holding `v b`, for every write `b` in the loop. -/
theorem foldl_set_hit {α β : Type} (d : α) (idx : β → Nat) (v : β → α) (l : List β) :
    ∀ (s : List α) (b : β), b ∈ l → (l.map idx).Nodup → idx b < s.length →
      (l.foldl (fun t p => t.set (idx p) (v p)) s).getD (idx b) d = v b := by
  induction l with
  | nil => intro s b hb; exact absurd hb (List.not_mem_nil b)
  | cons p l ih =>
    intro s b hb hnd hblen
    rw [List.map_cons, List.nodup_cons] at hnd
    rw [List.foldl_cons]
    by_cases hbl : b ∈ l
    · exact ih _ b hbl hnd.2 (by rw [List.length_set]; exact hblen)
    · have hbp : b = p := by
        rcases List.mem_cons.mp hb with h | h
        · exact h
        · exact absurd h hbl
      subst hbp
      have hmiss : ∀ q ∈ l, idx q ≠ idx b := by
        intro q hq heq
        exact hnd.1 (heq ▸ List.mem_map_of_mem idx hq)
      rw [foldl_set_miss d idx v l _ _ hmiss, getD_set_self _ _ _ _ hblen]

/-- Loop-ordered list of index pairs `(i, j)` visited by the nested loops
`for i in [0, dim_i) for j in [0, dim_j)`. -/
def pairList (dim_i dim_j : Nat) : List (Nat × Nat) :=
  (List.range dim_i).flatMap (fun i => (List.range dim_j).map (fun j => (i, j)))

/-- A nested row/column loop is the flat loop over `pairList`. -/
theorem foldl_nested_eq_pairList {α : Type} (g : List α → Nat → Nat → List α)
    (dim_i dim_j : Nat) :
    ∀ s : List α,
      (List.range dim_i).foldl
          (fun t i => (List.range dim_j).foldl (fun t j => g t i j) t) s
        = (pairList dim_i dim_j).foldl (fun t p => g t p.1 p.2) s := by
  induction dim_i with
  | zero => intro s; rfl
  | succ m ih =>
    intro s
    rw [pairList, List.range_succ, List.flatMap_append, List.foldl_append,
      List.foldl_append, List.foldl_cons, List.foldl_nil]
    rw [show (List.range m).flatMap (fun i => (List.range dim_j).map (fun j => (i, j)))
        = pairList m dim_j from rfl, ← ih]
    simp [List.foldl_map]

/-- Membership in `pairList` is exactly the loop bounds. -/
theorem mem_pairList {dim_i dim_j : Nat} {p : Nat × Nat} :
    p ∈ pairList dim_i dim_j ↔ p.1 < dim_i ∧ p.2 < dim_j := by
  cases p with
  | mk i j =>
    simp only [pairList, List.mem_flatMap, List.mem_map, List.mem_range, Prod.mk.injEq]
    constructor
    · rintro ⟨i', hi', j', hj', hij, hjj⟩
      subst hij; subst hjj; exact ⟨hi', hj'⟩
    · rintro ⟨hi, hj⟩
      exact ⟨i, hi, j, hj, rfl, rfl⟩

/-- The flat row-major offsets `i*dim_j + j` of the visited pairs are exactly
`0, 1, ..., dim_i*dim_j - 1` in order: every cell of the matrix exactly once. -/
theorem pairList_map_flat (dim_i dim_j : Nat) :
    (pairList dim_i dim_j).map (fun p => p.1 * dim_j + p.2)
      = List.range (dim_i * dim_j) := by
  induction dim_i with
  | zero => simp [pairList]
  | succ m ih =>
    rw [pairList, List.range_succ, List.flatMap_append, List.map_append,
      show (List.range m).flatMap (fun i => (List.range dim_j).map (fun j => (i, j)))
        = pairList m dim_j from rfl, ih]
    rw [Nat.succ_mul, List.range_add]
    congr 1
    simp [List.map_map, Function.comp]

/-- The length of the buffer is preserved by the nested accumulation loops. -/
theorem foldl_rows_add_length (w : Nat → Nat → ℚ) (dim_j m : Nat) (s : List ℚ) :
    ((List.range m).foldl
        (fun t i => (List.range dim_j).foldl (fun t j => t.set j (t.getD j 0 + w i j)) t)
        s).length = s.length :=
  foldl_length_eq _
    (fun t i => foldl_length_eq _ (fun t' j => List.length_set t' j _) _ t) _ s

/-- Accumulation loops `for i in [0, m) for j in [0, dim_j): buf[j] += w i j` add
to each in-range cell `k < dim_j` the column sum `Σ_{i < m} w i k` and touch no
other cell. -/
theorem foldl_rows_add (w : Nat → Nat → ℚ) (dim_j : Nat) :
    ∀ (m : Nat) (s : List ℚ) (k : Nat),
      ((List.range m).foldl
          (fun t i => (List.range dim_j).foldl (fun t j => t.set j (t.getD j 0 + w i j)) t)
          s).getD k 0
        = if k < dim_j ∧ k < s.length then s.getD k 0 + ∑ i ∈ Finset.range m, w i k
          else s.getD k 0 := by
  intro m
  induction m with
  | zero =>
    intro s k
    by_cases h : k < dim_j ∧ k < s.length <;> simp [h]
  | succ m ih =>
    intro s k
    rw [List.range_succ, List.foldl_append, List.foldl_cons, List.foldl_nil]
    rw [foldl_set_self_getD 0 (fun j x => x + w m j), foldl_rows_add_length, ih]
    by_cases h : k < dim_j ∧ k < s.length
    · simp only [h, and_self, if_true, Finset.sum_range_succ]
      ring
    · simp only [h, if_false]

/-- Value of cell `j < dim_j` of the `stat_mean` output: the column sum divided
by the row count, reading `a` at the loop's offsets `j + i*dim_j`. -/
theorem stat_mean_getD (a mean : List ℚ) (dim_i dim_j : Nat) (j : Nat)
    (hj : j < dim_j) (hlen : j < mean.length) :
    (stat_mean a mean dim_i dim_j).getD j 0
      = (∑ i ∈ Finset.range dim_i, a.getD (j + i * dim_j) 0) / (dim_i : ℚ) := by
  simp only [stat_mean]
  rw [foldl_set_self_getD 0 (fun j x => x / (dim_i : ℚ))]
  rw [foldl_rows_add_length (fun i j => a.getD (j + i * dim_j) 0) dim_j dim_i]
  rw [foldl_set_self_length 0 (fun _ _ => (0 : ℚ)) dim_j mean]
  rw [foldl_rows_add (fun i j => a.getD (j + i * dim_j) 0) dim_j dim_i]
  rw [foldl_set_self_length 0 (fun _ _ => (0 : ℚ)) dim_j mean]
  rw [foldl_set_self_getD 0 (fun _ _ => (0 : ℚ)) dim_j mean]
  simp [hj, hlen]

/-- Length of the `stat_mean` output buffer. -/
theorem stat_mean_length (a mean : List ℚ) (dim_i dim_j : Nat) :
    (stat_mean a mean dim_i dim_j).length = mean.length := by
  simp only [stat_mean]
  rw [foldl_set_self_length 0 (fun j x => x / (dim_i : ℚ)) dim_j]
  rw [foldl_rows_add_length (fun i j => a.getD (j + i * dim_j) 0) dim_j dim_i]
  rw [foldl_set_self_length 0 (fun _ _ => (0 : ℚ)) dim_j mean]

/-- Cells at or beyond `dim_j` of the `mean` buffer are untouched by `stat_mean`. -/
theorem stat_mean_getD_frame (a mean : List ℚ) (dim_i dim_j : Nat) (k : Nat)
    (hk : dim_j ≤ k) :
    (stat_mean a mean dim_i dim_j).getD k 0 = mean.getD k 0 := by
  simp only [stat_mean]
  rw [foldl_set_self_getD 0 (fun j x => x / (dim_i : ℚ))]
  rw [foldl_rows_add (fun i j => a.getD (j + i * dim_j) 0) dim_j dim_i]
  rw [foldl_set_self_getD 0 (fun _ _ => (0 : ℚ)) dim_j mean]
  have hnk : ¬k < dim_j := by omega
  simp [hnk]

/-- Value of cell `j < dim_j` after `stat_std`'s accumulation loops: the column
sum of squared deviations from the supplied mean. -/
theorem stat_std_acc_getD (a mean std : List ℚ) (dim_i dim_j : Nat) (j : Nat)
    (hj : j < dim_j) (hlen : j < std.length) :
    (stat_std_acc a mean std dim_i dim_j).getD j 0
      = ∑ i ∈ Finset.range dim_i,
          (a.getD (j + i * dim_j) 0 - mean.getD j 0) *
            (a.getD (j + i * dim_j) 0 - mean.getD j 0) := by
  simp only [stat_std_acc]
  rw [foldl_rows_add
    (fun i j => (a.getD (j + i * dim_j) 0 - mean.getD j 0) *
      (a.getD (j + i * dim_j) 0 - mean.getD j 0)) dim_j dim_i]
  rw [foldl_set_self_length 0 (fun _ _ => (0 : ℚ)) dim_j std]
  rw [foldl_set_self_getD 0 (fun _ _ => (0 : ℚ)) dim_j std]
  simp [hj, hlen]

/-- Length of the buffer after `stat_std`'s accumulation loops. -/
theorem stat_std_acc_length (a mean std : List ℚ) (dim_i dim_j : Nat) :
    (stat_std_acc a mean std dim_i dim_j).length = std.length := by
  simp only [stat_std_acc]
  rw [foldl_rows_add_length
    (fun i j => (a.getD (j + i * dim_j) 0 - mean.getD j 0) *
      (a.getD (j + i * dim_j) 0 - mean.getD j 0)) dim_j dim_i]
  rw [foldl_set_self_length 0 (fun _ _ => (0 : ℚ)) dim_j std]

/-- Cells at or beyond `dim_j` are untouched by `stat_std`'s accumulation loops. -/
theorem stat_std_acc_getD_frame (a mean std : List ℚ) (dim_i dim_j k : Nat)
    (hk : dim_j ≤ k) :
    (stat_std_acc a mean std dim_i dim_j).getD k 0 = std.getD k 0 := by
  simp only [stat_std_acc]
  rw [foldl_rows_add
    (fun i j => (a.getD (j + i * dim_j) 0 - mean.getD j 0) *
      (a.getD (j + i * dim_j) 0 - mean.getD j 0)) dim_j dim_i]
  rw [foldl_set_self_getD 0 (fun _ _ => (0 : ℚ)) dim_j std]
  have hnk : ¬k < dim_j := by omega
  simp [hnk]

/-- The loop body of `stat_std`'s final loop — divide the cell, then overwrite
it with the square root of the divided value — is one self-update per cell. -/
theorem divide_sqrt_fun (c : ℝ) :
    (fun (std : List ℝ) (j : Nat) =>
        let std := std.set j (std.getD j 0 / c)
        std.set j (Real.sqrt (std.getD j 0)))
      = fun (std : List ℝ) (j : Nat) => std.set j (Real.sqrt (std.getD j 0 / c)) := by
  funext s j
  by_cases h : j < s.length
  · simp only []
    rw [getD_set_self s j _ 0 h, List.set_set]
  · have hle : s.length ≤ j := by omega
    simp only [List.set_eq_of_length_le hle]

/-- Reading a rational buffer reinterpreted over the reals. -/
theorem getD_map_ratCast (l : List ℚ) (k : Nat) :
    (l.map (fun q : ℚ => (q : ℝ))).getD k 0 = ((l.getD k 0 : ℚ) : ℝ) := by
  have h := List.getD_map l 0 (n := k) (fun q : ℚ => (q : ℝ))
  rw [Rat.cast_zero] at h
  exact h

/-- Value of cell `j < dim_j` of the `stat_std` output: the square root of the
accumulated squared deviations divided by `dim_i - 1`. -/
theorem stat_std_getD (a mean std : List ℚ) (dim_i dim_j : Nat) (j : Nat)
    (hj : j < dim_j) (hlen : j < std.length) :
    (stat_std a mean std dim_i dim_j).getD j 0
      = Real.sqrt
          (((stat_std_acc a mean std dim_i dim_j).getD j 0 : ℚ) / ((dim_i : ℝ) - 1)) := by
  simp only [stat_std]
  rw [divide_sqrt_fun ((dim_i : ℝ) - 1)]
  rw [foldl_set_self_getD 0 (fun _ v => Real.sqrt (v / ((dim_i : ℝ) - 1))) dim_j]
  rw [List.length_map, stat_std_acc_length a mean std dim_i dim_j]
  rw [getD_map_ratCast]
  rw [if_pos ⟨hj, hlen⟩]

/-- Length of the `stat_std` output buffer. -/
theorem stat_std_length (a mean std : List ℚ) (dim_i dim_j : Nat) :
    (stat_std a mean std dim_i dim_j).length = std.length := by
  simp only [stat_std]
  rw [divide_sqrt_fun ((dim_i : ℝ) - 1)]
  rw [foldl_set_self_length 0 (fun _ v => Real.sqrt (v / ((dim_i : ℝ) - 1))) dim_j]
  rw [List.length_map, stat_std_acc_length a mean std dim_i dim_j]

/-- Cells at or beyond `dim_j` of the `std` buffer are untouched by `stat_std`
(up to the exact reinterpretation of the buffer over `ℝ`). -/
theorem stat_std_getD_frame (a mean std : List ℚ) (dim_i dim_j k : Nat)
    (hk : dim_j ≤ k) :
    (stat_std a mean std dim_i dim_j).getD k 0 = ((std.getD k 0 : ℚ) : ℝ) := by
  simp only [stat_std]
  rw [divide_sqrt_fun ((dim_i : ℝ) - 1)]
  rw [foldl_set_self_getD 0 (fun _ v => Real.sqrt (v / ((dim_i : ℝ) - 1))) dim_j]
  rw [getD_map_ratCast]
  have hnk : ¬k < dim_j := by omega
  rw [if_neg (fun hcon => hnk hcon.1)]
  rw [stat_std_acc_getD_frame a mean std dim_i dim_j k hk]

/-- Row-major offsets of in-bounds cells are in bounds of the flat buffer. -/
theorem flat_index_lt {i j dim_i dim_j : Nat} (hi : i < dim_i) (hj : j < dim_j) :
    i * dim_j + j < dim_i * dim_j :=
  calc i * dim_j + j < i * dim_j + dim_j := by omega
  _ = (i + 1) * dim_j := by ring
  _ ≤ dim_i * dim_j := Nat.mul_le_mul_right _ (by omega)

/-- Value of cell `(i, j)` of the `remove_mean_col` output: the input cell with
the column mean subtracted. -/
theorem remove_mean_col_getD (a mean b : List ℚ) (dim_i dim_j : Nat) (i j : Nat)
    (hi : i < dim_i) (hj : j < dim_j) (hb : dim_i * dim_j ≤ b.length) :
    (remove_mean_col a mean b dim_i dim_j).getD (i * dim_j + j) 0
      = a.getD (i * dim_j + j) 0 - mean.getD j 0 := by
  simp only [remove_mean_col]
  rw [foldl_nested_eq_pairList
    (fun t i j => t.set (i * dim_j + j) (a.getD (i * dim_j + j) 0 - mean.getD j 0))
    dim_i dim_j b]
  exact foldl_set_hit 0 (fun p : Nat × Nat => p.1 * dim_j + p.2)
    (fun p : Nat × Nat => a.getD (p.1 * dim_j + p.2) 0 - mean.getD p.2 0)
    (pairList dim_i dim_j) b (i, j)
    (mem_pairList.mpr ⟨hi, hj⟩)
    (by rw [pairList_map_flat]; exact List.nodup_range _)
    (lt_of_lt_of_le (flat_index_lt hi hj) hb)

/-- Length of the `remove_mean_col` output buffer. -/
theorem remove_mean_col_length (a mean b : List ℚ) (dim_i dim_j : Nat) :
    (remove_mean_col a mean b dim_i dim_j).length = b.length := by
  simp only [remove_mean_col]
  exact foldl_length_eq _
    (fun t i => foldl_length_eq _ (fun t' j => List.length_set t' _ _) _ t) _ b

/-- Cells at or beyond `dim_i * dim_j` of the `b` buffer are untouched by
`remove_mean_col`. -/
theorem remove_mean_col_getD_frame (a mean b : List ℚ) (dim_i dim_j k : Nat)
    (hk : dim_i * dim_j ≤ k) :
    (remove_mean_col a mean b dim_i dim_j).getD k 0 = b.getD k 0 := by
  simp only [remove_mean_col]
  rw [foldl_nested_eq_pairList
    (fun t i j => t.set (i * dim_j + j) (a.getD (i * dim_j + j) 0 - mean.getD j 0))
    dim_i dim_j b]
  refine foldl_set_miss 0 (fun p : Nat × Nat => p.1 * dim_j + p.2)
    (fun p : Nat × Nat => a.getD (p.1 * dim_j + p.2) 0 - mean.getD p.2 0)
    (pairList dim_i dim_j) b k (fun p hp => ?_)
  have hmem := mem_pairList.mp hp
  have hlt := flat_index_lt hmem.1 hmem.2
  show p.1 * dim_j + p.2 ≠ k
  omega

/-- The summation loop of `stat_mean` reads each of the `dim_i * dim_j` cells of
`a` exactly once (its read offsets are `0, ..., dim_i*dim_j - 1`, each once). -/
theorem stat_mean_reads_eq_range (dim_i dim_j : Nat) :
    stat_mean_reads dim_i dim_j = List.range (dim_i * dim_j) := by
  rw [← pairList_map_flat dim_i dim_j, pairList, List.map_flatMap]
  simp only [stat_mean_reads, List.map_map]
  congr 1
  funext i
  simp [Function.comp, Nat.add_comm]

/-! Claim theorems. -/

/-- Claim C2: for every matrix `a` with `dim_i ≥ 1`, `dim_j ≥ 1` and a mean
buffer of length (at least) `dim_j`, `stat_mean` writes, for each column
`j < dim_j`, `mean[j] = (Σ over rows i of a[i*dim_j + j]) / dim_i`, and its
summation loop reads each of the `dim_i * dim_j` matrix cells exactly once. -/
theorem stat_mean_correct (a mean : List ℚ) (dim_i dim_j : Nat)
    (hi : 1 ≤ dim_i) (hj0 : 1 ≤ dim_j) (hlen : dim_j ≤ mean.length) :
    (∀ j, j < dim_j →
      (stat_mean a mean dim_i dim_j).getD j 0
        = (∑ i ∈ Finset.range dim_i, a.getD (i * dim_j + j) 0) / (dim_i : ℚ))
    ∧ stat_mean_reads dim_i dim_j = List.range (dim_i * dim_j) := by
  refine ⟨fun j hj => ?_, stat_mean_reads_eq_range dim_i dim_j⟩
  rw [stat_mean_getD a mean dim_i dim_j j hj (lt_of_lt_of_le hj hlen)]
  congr 1
  exact Finset.sum_congr rfl (fun i _ => by rw [Nat.add_comm j (i * dim_j)])

/-- Witness for C2 at the spec's concrete example `[[1,2],[3,4],[5,6]]`. -/
theorem stat_mean_correct_witness :
    1 ≤ 3 ∧ 1 ≤ 2 ∧ 2 ≤ ([0, 0] : List ℚ).length
      ∧ (stat_mean [1, 2, 3, 4, 5, 6] [0, 0] 3 2).getD 0 0
          = (∑ i ∈ Finset.range 3, ([1, 2, 3, 4, 5, 6] : List ℚ).getD (i * 2 + 0) 0)
              / ((3 : Nat) : ℚ)
      ∧ stat_mean_reads 3 2 = List.range (3 * 2) :=
  ⟨by norm_num, by norm_num, by simp,
    (stat_mean_correct [1, 2, 3, 4, 5, 6] [0, 0] 3 2 (by norm_num) (by norm_num)
      (by simp)).1 0 (by norm_num),
    (stat_mean_correct [1, 2, 3, 4, 5, 6] [0, 0] 3 2 (by norm_num) (by norm_num)
      (by simp)).2⟩

/-- Claim C3: for every matrix `a` with `dim_i ≥ 2` and every supplied mean
vector, `stat_std` writes, for each column `j < dim_j`,
`std[j] = sqrt(Σ over rows i of (a[i*dim_j + j] - mean[j])² / (dim_i - 1))` —
the sample standard deviation with Bessel's correction. -/
theorem stat_std_correct (a mean std : List ℚ) (dim_i dim_j : Nat)
    (hi : 2 ≤ dim_i) (hlen : dim_j ≤ std.length) :
    ∀ j, j < dim_j →
      (stat_std a mean std dim_i dim_j).getD j 0
        = Real.sqrt ((∑ i ∈ Finset.range dim_i,
            (((a.getD (i * dim_j + j) 0 : ℚ) : ℝ) - ((mean.getD j 0 : ℚ) : ℝ)) ^ 2)
            / ((dim_i : ℝ) - 1)) := by
  intro j hj
  rw [stat_std_getD a mean std dim_i dim_j j hj (lt_of_lt_of_le hj hlen)]
  rw [stat_std_acc_getD a mean std dim_i dim_j j hj (lt_of_lt_of_le hj hlen)]
  have hcast :
      ((∑ i ∈ Finset.range dim_i,
          (a.getD (j + i * dim_j) 0 - mean.getD j 0) *
            (a.getD (j + i * dim_j) 0 - mean.getD j 0) : ℚ) : ℝ)
        = ∑ i ∈ Finset.range dim_i,
            (((a.getD (i * dim_j + j) 0 : ℚ) : ℝ) - ((mean.getD j 0 : ℚ) : ℝ)) ^ 2 := by
    push_cast
    refine Finset.sum_congr rfl (fun i _ => ?_)
    rw [Nat.add_comm j (i * dim_j)]
    ring
  rw [hcast]

/-- Witness for C3 at the spec's concrete example (`std = [2,2]` column 0). -/
theorem stat_std_correct_witness :
    2 ≤ 3 ∧ 2 ≤ ([0, 0] : List ℚ).length ∧ 0 < 2
      ∧ (stat_std [1, 2, 3, 4, 5, 6] [3, 4] [0, 0] 3 2).getD 0 0
          = Real.sqrt ((∑ i ∈ Finset.range 3,
              ((([1, 2, 3, 4, 5, 6] : List ℚ).getD (i * 2 + 0) 0 : ℝ)
                - (([3, 4] : List ℚ).getD 0 0 : ℝ)) ^ 2) / (((3 : Nat) : ℝ) - 1)) :=
  ⟨by norm_num, by simp, by norm_num,
    stat_std_correct [1, 2, 3, 4, 5, 6] [3, 4] [0, 0] 3 2 (by norm_num) (by simp)
      0 (by norm_num)⟩

/-- Claim C4: for every matrix `a` with `dim_i ≥ 1`, `dim_j ≥ 1` and every mean
vector, `remove_mean_col` writes into the output buffer `b` exactly
`b[i*dim_j + j] = a[i*dim_j + j] - mean[j]` for every row `i` and column `j`. -/
theorem remove_mean_col_correct (a mean b : List ℚ) (dim_i dim_j : Nat)
    (hi : 1 ≤ dim_i) (hj0 : 1 ≤ dim_j) (hb : dim_i * dim_j ≤ b.length) :
    ∀ i j, i < dim_i → j < dim_j →
      (remove_mean_col a mean b dim_i dim_j).getD (i * dim_j + j) 0
        = a.getD (i * dim_j + j) 0 - mean.getD j 0 :=
  fun i j hi' hj' => remove_mean_col_getD a mean b dim_i dim_j i j hi' hj' hb

/-- Witness for C4 at the spec's concrete example, cell (2, 1). -/
theorem remove_mean_col_correct_witness :
    1 ≤ 3 ∧ 1 ≤ 2 ∧ 3 * 2 ≤ ([0, 0, 0, 0, 0, 0] : List ℚ).length
      ∧ (remove_mean_col [1, 2, 3, 4, 5, 6] [3, 4] [0, 0, 0, 0, 0, 0] 3 2).getD (2 * 2 + 1) 0
          = ([1, 2, 3, 4, 5, 6] : List ℚ).getD (2 * 2 + 1) 0 - ([3, 4] : List ℚ).getD 1 0 :=
  ⟨by norm_num, by norm_num, by simp,
    remove_mean_col_correct [1, 2, 3, 4, 5, 6] [3, 4] [0, 0, 0, 0, 0, 0] 3 2
      (by norm_num) (by norm_num) (by simp) 2 1 (by norm_num) (by norm_num)⟩

/-- Claim C6: centering with the `stat_mean` output and then adding `mean[j]`
back to each cell of column `j` reconstructs the original matrix exactly (the
embedding is exact rational arithmetic, so no floating-point tolerance is
needed). -/
theorem center_uncenter_round_trip (a mean0 b : List ℚ) (dim_i dim_j : Nat)
    (hi : 1 ≤ dim_i) (hj0 : 1 ≤ dim_j) (hm : dim_j ≤ mean0.length)
    (hb : dim_i * dim_j ≤ b.length) :
    ∀ i j, i < dim_i → j < dim_j →
      (remove_mean_col a (stat_mean a mean0 dim_i dim_j) b dim_i dim_j).getD (i * dim_j + j) 0
        + (stat_mean a mean0 dim_i dim_j).getD j 0
        = a.getD (i * dim_j + j) 0 := by
  intro i j hi' hj'
  rw [remove_mean_col_getD a (stat_mean a mean0 dim_i dim_j) b dim_i dim_j i j hi' hj' hb]
  ring

/-- Witness for C6 at the spec's concrete example, cell (0, 0). -/
theorem center_uncenter_round_trip_witness :
    1 ≤ 3 ∧ 1 ≤ 2 ∧ 2 ≤ ([0, 0] : List ℚ).length ∧ 3 * 2 ≤ ([0, 0, 0, 0, 0, 0] : List ℚ).length
      ∧ (remove_mean_col [1, 2, 3, 4, 5, 6] (stat_mean [1, 2, 3, 4, 5, 6] [0, 0] 3 2)
            [0, 0, 0, 0, 0, 0] 3 2).getD (0 * 2 + 0) 0
          + (stat_mean [1, 2, 3, 4, 5, 6] [0, 0] 3 2).getD 0 0
          = ([1, 2, 3, 4, 5, 6] : List ℚ).getD (0 * 2 + 0) 0 :=
  ⟨by norm_num, by norm_num, by simp, by simp,
    center_uncenter_round_trip [1, 2, 3, 4, 5, 6] [0, 0] [0, 0, 0, 0, 0, 0] 3 2
      (by norm_num) (by norm_num) (by simp) (by simp) 0 0 (by norm_num) (by norm_num)⟩

/-- Claim C7: on a matrix whose column `j` is constant (value `c` in every row),
running `stat_mean` and then `stat_std` with that mean vector yields
`std[j] = 0` exactly. -/
theorem const_column_std_zero (a mean0 std : List ℚ) (dim_i dim_j : Nat) (j : Nat) (c : ℚ)
    (hi : 2 ≤ dim_i) (hj : j < dim_j) (hm : dim_j ≤ mean0.length) (hs : dim_j ≤ std.length)
    (hc : ∀ i, i < dim_i → a.getD (i * dim_j + j) 0 = c) :
    (stat_std a (stat_mean a mean0 dim_i dim_j) std dim_i dim_j).getD j 0 = 0 := by
  have hjm : j < mean0.length := lt_of_lt_of_le hj hm
  have hjs : j < std.length := lt_of_lt_of_le hj hs
  have hne : (dim_i : ℚ) ≠ 0 := Nat.cast_ne_zero.mpr (by omega)
  have hmean : (stat_mean a mean0 dim_i dim_j).getD j 0 = c := by
    rw [stat_mean_getD a mean0 dim_i dim_j j hj hjm]
    have hterm : ∀ i ∈ Finset.range dim_i, a.getD (j + i * dim_j) 0 = c := by
      intro i hi'
      rw [Nat.add_comm j (i * dim_j)]
      exact hc i (Finset.mem_range.mp hi')
    rw [Finset.sum_congr rfl hterm, Finset.sum_const, Finset.card_range, nsmul_eq_mul]
    rw [mul_comm, mul_div_assoc, div_self hne, mul_one]
  rw [stat_std_getD a (stat_mean a mean0 dim_i dim_j) std dim_i dim_j j hj hjs]
  rw [stat_std_acc_getD a (stat_mean a mean0 dim_i dim_j) std dim_i dim_j j hj hjs]
  have hterm2 : ∀ i ∈ Finset.range dim_i,
      (a.getD (j + i * dim_j) 0 - (stat_mean a mean0 dim_i dim_j).getD j 0) *
        (a.getD (j + i * dim_j) 0 - (stat_mean a mean0 dim_i dim_j).getD j 0) = 0 := by
    intro i hi'
    rw [Nat.add_comm j (i * dim_j), hc i (Finset.mem_range.mp hi'), hmean, sub_self, mul_zero]
  rw [Finset.sum_congr rfl hterm2, Finset.sum_const_zero, Rat.cast_zero, zero_div,
    Real.sqrt_zero]

/-- Witness for C7: a 2×2 matrix whose column 0 is constantly 5. -/
theorem const_column_std_zero_witness :
    (stat_std [5, 1, 5, 2] (stat_mean [5, 1, 5, 2] [0, 0] 2 2) [0, 0] 2 2).getD 0 0 = 0 :=
  const_column_std_zero [5, 1, 5, 2] [0, 0] [0, 0] 2 2 0 5 (by norm_num) (by norm_num)
    (by simp) (by simp) (fun i hi => by interval_cases i <;> simp)

/-- Claim C8: `stat_mean`, `stat_std` and `remove_mean_col` write only to their
designated output buffer, and only within its documented extent: the output
buffer keeps its length and every cell at or beyond the written region
(`dim_j` for the column statistics, `dim_i * dim_j` for the centered matrix) is
unchanged.  In the embedding the input buffers `a` and `mean` are not part of
any function's result — the source assigns only through the output pointer —
so their preservation is by construction. -/
theorem stats_frame (a mean std b : List ℚ) (dim_i dim_j : Nat) :
    ((stat_mean a mean dim_i dim_j).length = mean.length
      ∧ ∀ k, dim_j ≤ k → (stat_mean a mean dim_i dim_j).getD k 0 = mean.getD k 0)
    ∧ ((stat_std a mean std dim_i dim_j).length = std.length
      ∧ ∀ k, dim_j ≤ k →
          (stat_std a mean std dim_i dim_j).getD k 0 = ((std.getD k 0 : ℚ) : ℝ))
    ∧ ((remove_mean_col a mean b dim_i dim_j).length = b.length
      ∧ ∀ k, dim_i * dim_j ≤ k →
          (remove_mean_col a mean b dim_i dim_j).getD k 0 = b.getD k 0) :=
  ⟨⟨stat_mean_length a mean dim_i dim_j,
      fun k hk => stat_mean_getD_frame a mean dim_i dim_j k hk⟩,
    ⟨stat_std_length a mean std dim_i dim_j,
      fun k hk => stat_std_getD_frame a mean std dim_i dim_j k hk⟩,
    ⟨remove_mean_col_length a mean b dim_i dim_j,
      fun k hk => remove_mean_col_getD_frame a mean b dim_i dim_j k hk⟩⟩

/-- Witness for C8: cells just past the written region survive, and lengths are
kept, on concrete 3×2 buffers. -/
theorem stats_frame_witness :
    2 ≤ 2 ∧ 3 * 2 ≤ 6
      ∧ (stat_mean [1, 2, 3, 4, 5, 6] [0, 0, 7] 3 2).getD 2 0 = ([0, 0, 7] : List ℚ).getD 2 0
      ∧ (stat_std [1, 2, 3, 4, 5, 6] [3, 4] [0, 0, 7] 3 2).getD 2 0
          = ((([0, 0, 7] : List ℚ).getD 2 0 : ℚ) : ℝ)
      ∧ (remove_mean_col [1, 2, 3, 4, 5, 6] [3, 4] [0, 0, 0, 0, 0, 0, 7] 3 2).getD 6 0
          = ([0, 0, 0, 0, 0, 0, 7] : List ℚ).getD 6 0
      ∧ (stat_mean [1, 2, 3, 4, 5, 6] [0, 0, 7] 3 2).length = ([0, 0, 7] : List ℚ).length :=
  ⟨by norm_num, by norm_num,
    (stats_frame [1, 2, 3, 4, 5, 6] [0, 0, 7] [0, 0, 7] [0, 0, 0, 0, 0, 0, 7] 3 2).1.2
      2 (by norm_num),
    (stats_frame [1, 2, 3, 4, 5, 6] [3, 4] [0, 0, 7] [0, 0, 0, 0, 0, 0, 7] 3 2).2.1.2
      2 (by norm_num),
    (stats_frame [1, 2, 3, 4, 5, 6] [3, 4] [0, 0, 7] [0, 0, 0, 0, 0, 0, 7] 3 2).2.2.2
      6 (by norm_num),
    (stats_frame [1, 2, 3, 4, 5, 6] [0, 0, 7] [0, 0, 7] [0, 0, 0, 0, 0, 0, 7] 3 2).1.1⟩

/-- Claim C5: `randn` consumes exactly one value from the pseudo-random stream
and returns `sqrt(-2 * ln u) * cos(Twopi * u)` with the same normalised draw
`u = rand()/RAND_MAX` in both the radius and angle factors; `Twopi`, the
source's 50-digit literal, is `2π` to within `10⁻¹⁹` (so the claim's `2*pi*u`
reading of the angle is exact to well below double precision). -/
theorem randn_correct (s : List ℤ) :
    randn s
      = (Real.sqrt (-2 * Real.log (((s.headD 0 : ℤ) : ℝ) / ((RAND_MAX : ℤ) : ℝ)))
          * Real.cos (Twopi * (((s.headD 0 : ℤ) : ℝ) / ((RAND_MAX : ℤ) : ℝ))), s.tail)
      ∧ |Twopi - 2 * Real.pi| < 1 / 10 ^ 19 := by
  constructor
  · simp only [randn]
    norm_num
  · have h1 := Real.pi_gt_d20
    have h2 := Real.pi_lt_d20
    rw [abs_lt]
    constructor
    · simp only [Twopi]
      norm_num
      nlinarith [h1, h2]
    · simp only [Twopi]
      norm_num
      nlinarith [h1, h2]

/-- Witness for C5 at a concrete one-element stream. -/
theorem randn_correct_witness :
    randn [7]
      = (Real.sqrt (-2 * Real.log (((([7] : List ℤ).headD 0 : ℤ) : ℝ) / ((RAND_MAX : ℤ) : ℝ)))
          * Real.cos (Twopi * (((([7] : List ℤ).headD 0 : ℤ) : ℝ) / ((RAND_MAX : ℤ) : ℝ))),
        ([7] : List ℤ).tail)
      ∧ |Twopi - 2 * Real.pi| < 1 / 10 ^ 19 :=
  randn_correct [7]

/-- Claim C1 is refuted by the code: line 122 writes to offset `i*dim_i + j`
while reading `i*dim_j + j`, so for the non-square input below
(`dim_i = 2`, `dim_j = 3`, matrix `[1,2,3,4,5,6]`, `new_mean = 10`,
`new_stddev = 1`) the function completes but produces
`[11, 12, 14, 15, 16, 6]`, not the uniform affine image
`[11, 12, 13, 14, 15, 16]` of every element — cell 2 is clobbered by the
row-1 writes and cell 5 is never written. -/
theorem modify_mean_stddev_stride_slip :
    modify_mean_stddev [1, 2, 3, 4, 5, 6] 10 1 2 3 = some [11, 12, 14, 15, 16, 6]
      ∧ ([11, 12, 14, 15, 16, 6] : List ℚ)
          ≠ ([1, 2, 3, 4, 5, 6] : List ℚ).map (fun v => v * 1 + 10) := by
  constructor
  · simp [modify_mean_stddev, List.range_succ]
    norm_num
  · simp

/-- Claim C9: with `dim_i = 3 > dim_j = 2` and a buffer of exactly
`dim_i * dim_j = 6` cells, `modify_mean_stddev` computes the write offset
`i*dim_i + j = 2*3 + 0 = 6 ≥ 6` and so hits the out-of-bounds branch of the
checked embedding (returns `none`) even though every documented precondition
holds. -/
theorem modify_mean_stddev_oob :
    3 > 2 ∧ 2 * 3 + 0 ≥ 3 * 2
      ∧ modify_mean_stddev [0, 0, 0, 0, 0, 0] 0 1 3 2 = none
      ∧ ([0, 0, 0, 0, 0, 0] : List ℚ).length = 3 * 2 := by
  refine ⟨by norm_num, by norm_num, ?_, by simp⟩
  simp [modify_mean_stddev, List.range_succ]

/-- Claim C10: `show_matrix` on the 1×1 matrix `[[3.14159265]]` writes exactly
the nine characters `"3.14159 \n"`. -/
theorem show_matrix_pi_example : show_matrix [3.14159265] 1 1 = "3.14159 \n" := by
  have hm : (⌊(if (3.14159265 : ℚ) < 0 then -(3.14159265 : ℚ) else (3.14159265 : ℚ))
      * 100000 + 1 / 2⌋ : ℤ) = 314159 := by
    rw [if_neg (by norm_num)]
    rw [Int.floor_eq_iff]
    norm_num
  simp only [show_matrix, List.range_succ, List.range_zero, List.nil_append,
    List.foldl_append, List.foldl_cons, List.foldl_nil]
  simp only [format_2_5f, hm]
  norm_num
  rfl

end Stats
